import Mathlib

/-!
Shallow embedding of the Hyle cairo-verifier core
(src/cairo-verifier/src/utils.rs) and proofs about it.

The embedded pieces are:
  * the artifact framing written by write_proof (lines 116-148) and read back
    by verify_proof (lines 20-68); the external bincode codec and the
    cryptographic verification collaborator are out of scope, so the reader
    here is the pure framing portion of verify_proof;
  * the program-output decoder: the DeserializableHyleOutput impl for
    HyleOutput<Event> (lines 152-256), i.e. i_to_w,
    deserialize_cairo_bytesarray, deserialize.

Rust panics (unwrap, Vec::remove out of bounds, the panic arm, slice index
out of bounds) are modelled as distinguished error values so that aborting
and returning an error stay observably different.  Machine integers are
modelled as Nat with explicit bounds where Rust parsing enforces them.
-/

namespace CairoVerifier

/-- Error outcomes of the program-output decoder.  The source aborts the
process in all of these cases; the constructors record which abort fired:
a Vec::remove out of bounds, a failed parse or i_to_w expect, or the
explicit panic arm for an unexpected remaining-token count (line 251). -/
inductive DecodeError where
  | panicIndex
  | panicParse
  | unsupportedOutputShape
deriving DecidableEq

/-- Error outcomes of the artifact reader.  verifierError is the returned
VerifierError value of verify_proof; panicSlice is an out-of-bounds slice
index (a process abort, not a returned value). -/
inductive FrameError where
  | verifierError
  | panicSlice
deriving DecidableEq

/-- Event (utils.rs lines 12-18): four optional fields; Default leaves all
of them None.  The Rust field from is a Lean keyword, hence from_. -/
structure Event where
  from_ : Option String
  to_ : Option String
  amount : Option Nat
  score : Option Nat
deriving DecidableEq

/-- HyleOutput<Event> as used by utils.rs (the struct itself lives in the
external hyle_contract crate; the fields are exactly those populated at
lines 213-223 and 239-249). -/
structure HyleOutput where
  version : Nat
  initial_state : List Nat
  next_state : List Nat
  origin : String
  caller : String
  block_number : Nat
  block_time : Nat
  tx_hash : List Nat
  program_outputs : Event
deriving DecidableEq

/-- One decimal digit test, as Rust str::parse does for integer types. -/
def isAsciiDigit (c : Char) : Bool := '0' ≤ c && c ≤ '9'

/-- Value of a digit list, most-significant first. -/
def digitsToNat (l : List Char) : Nat :=
  l.foldl (fun a c => a * 10 + (c.toNat - 48)) 0

/-- Rust str::parse for an unsigned integer type with exclusive bound
`bound`: an optional leading plus sign, then at least one ASCII digit, and
the value must fit the type. -/
def parseUnsigned (bound : Nat) (s : String) : Option Nat :=
  let cs := match s.data with
    | '+' :: r => r
    | r => r
  if cs.isEmpty then none
  else if cs.all isAsciiDigit then
    let n := digitsToNat cs
    if n < bound then some n else none
  else none

/-- parse::<usize> on the 64-bit target the crate builds for. -/
def parseUsize (s : String) : Option Nat := parseUnsigned (2 ^ 64) s

/-- parse::<u32>. -/
def parseU32 (s : String) : Option Nat := parseUnsigned (2 ^ 32) s

/-- parse::<u64>. -/
def parseU64 (s : String) : Option Nat := parseUnsigned (2 ^ 64) s

/-- num::BigInt FromStr: an optional sign, then at least one ASCII digit,
arbitrary precision. -/
def parseBigInt (s : String) : Option Int :=
  match s.data with
  | '-' :: r =>
      if r.isEmpty then none
      else if r.all isAsciiDigit then some (-(digitsToNat r : Int)) else none
  | '+' :: r =>
      if r.isEmpty then none
      else if r.all isAsciiDigit then some (digitsToNat r : Int) else none
  | r =>
      if r.isEmpty then none
      else if r.all isAsciiDigit then some (digitsToNat r : Int) else none

/-- Lowercase hex digit for a value below 16. -/
def hexChar (n : Nat) : Char :=
  if n < 10 then Char.ofNat (48 + n) else Char.ofNat (87 + n)

/-- Hex digits of n, most-significant first, accumulated; the first
argument is fuel, always called with fuel at least the digit count. -/
def natToHexAux : Nat → Nat → List Char → List Char
  | 0, _, acc => acc
  | _, 0, acc => acc
  | fuel + 1, n + 1, acc =>
      natToHexAux fuel ((n + 1) / 16) (hexChar ((n + 1) % 16) :: acc)

/-- Rust format! with the lower-hex spec on a nonnegative BigInt:
lowercase digits, no leading zeros, and the single digit 0 for zero. -/
def natToHex (n : Nat) : String :=
  if n = 0 then "0" else String.mk (natToHexAux n n [])

/-- Rust format! with the lower-hex spec on a BigInt: a minus sign is
printed before the magnitude of a negative value. -/
def intToHex (i : Int) : String :=
  if i < 0 then "-" ++ natToHex i.natAbs else natToHex i.natAbs

/-- Value of one hex digit character, as the hex crate accepts it. -/
def hexDigitVal (c : Char) : Option Nat :=
  if '0' ≤ c && c ≤ '9' then some (c.toNat - 48)
  else if 'a' ≤ c && c ≤ 'f' then some (c.toNat - 87)
  else if 'A' ≤ c && c ≤ 'F' then some (c.toNat - 55)
  else none

/-- hex::decode: fails on an odd number of digits or any non-hex
character, otherwise pairs digits into bytes. -/
def hexDecode : List Char → Option (List Nat)
  | [] => some []
  | [_] => none
  | a :: b :: rest =>
      match hexDigitVal a, hexDigitVal b, hexDecode rest with
      | some hi, some lo, some r => some ((hi * 16 + lo) :: r)
      | _, _, _ => none

/-- Strict UTF-8 decoding of a byte list, as Rust String::from_utf8:
rejects stray continuations, overlong forms, surrogates and values past
0x10FFFF. -/
def utf8Decode : List Nat → Option (List Char)
  | [] => some []
  | b :: rest =>
      if b < 0x80 then
        match utf8Decode rest with
        | some cs => some (Char.ofNat b :: cs)
        | none => none
      else if 0xC2 ≤ b && b ≤ 0xDF then
        match rest with
        | c1 :: rest1 =>
            if 0x80 ≤ c1 && c1 ≤ 0xBF then
              match utf8Decode rest1 with
              | some cs => some (Char.ofNat ((b - 0xC0) * 0x40 + (c1 - 0x80)) :: cs)
              | none => none
            else none
        | [] => none
      else if 0xE0 ≤ b && b ≤ 0xEF then
        match rest with
        | c1 :: c2 :: rest2 =>
            let lo1 : Nat := if b = 0xE0 then 0xA0 else 0x80
            let hi1 : Nat := if b = 0xED then 0x9F else 0xBF
            if lo1 ≤ c1 && c1 ≤ hi1 && 0x80 ≤ c2 && c2 ≤ 0xBF then
              match utf8Decode rest2 with
              | some cs =>
                  some (Char.ofNat ((b - 0xE0) * 0x1000 + (c1 - 0x80) * 0x40 + (c2 - 0x80)) :: cs)
              | none => none
            else none
        | _ => none
      else if 0xF0 ≤ b && b ≤ 0xF4 then
        match rest with
        | c1 :: c2 :: c3 :: rest3 =>
            let lo1 : Nat := if b = 0xF0 then 0x90 else 0x80
            let hi1 : Nat := if b = 0xF4 then 0x8F else 0xBF
            if lo1 ≤ c1 && c1 ≤ hi1 && 0x80 ≤ c2 && c2 ≤ 0xBF && 0x80 ≤ c3 && c3 ≤ 0xBF then
              match utf8Decode rest3 with
              | some cs =>
                  some (Char.ofNat ((b - 0xF0) * 0x40000 + (c1 - 0x80) * 0x1000 +
                        (c2 - 0x80) * 0x40 + (c3 - 0x80)) :: cs)
              | none => none
            else none
        | _ => none
      else none

/-- UTF-8 bytes of one scalar value (String::as_bytes building block). -/
def utf8EncodeCharN (n : Nat) : List Nat :=
  if n < 0x80 then [n]
  else if n < 0x800 then [0xC0 + n / 0x40, 0x80 + n % 0x40]
  else if n < 0x10000 then
    [0xE0 + n / 0x1000, 0x80 + n / 0x40 % 0x40, 0x80 + n % 0x40]
  else
    [0xF0 + n / 0x40000, 0x80 + n / 0x1000 % 0x40, 0x80 + n / 0x40 % 0x40, 0x80 + n % 0x40]

/-- Rust str::as_bytes().to_vec(): the UTF-8 bytes of the string. -/
def strBytes (s : String) : List Nat :=
  s.data.foldr (fun c acc => utf8EncodeCharN c.toNat ++ acc) []

/-- i_to_w (utils.rs lines 161-165): parse the token as a BigInt, render
it in lowercase hex, hex-decode the digits to bytes, decode those as
UTF-8.  Each expect in the source is a none here. -/
def i_to_w (s : String) : Option String :=
  match parseBigInt s with
  | none => none
  | some int =>
      match hexDecode (intToHex int).data with
      | none => none
      | some bytes =>
          match utf8Decode bytes with
          | none => none
          | some cs => some (String.mk cs)

/-- Vec::remove(i): returns the removed element and the remaining vector;
none models the out-of-bounds panic. -/
def listRemove (l : List String) (i : Nat) : Option (String × List String) :=
  match l, i with
  | [], _ => none
  | x :: r, 0 => some (x, r)
  | x :: r, i + 1 =>
      match listRemove r i with
      | none => none
      | some (y, r2) => some (y, x :: r2)

/-- The for loop of deserialize_cairo_bytesarray (lines 176-181): pop n
front tokens; every token other than the literal string 0 goes through
i_to_w and is appended to the accumulator. -/
def bytesLoop : Nat → List String → String → Except DecodeError (String × List String)
  | 0, data, word => .ok (word, data)
  | n + 1, data, word =>
      match listRemove data 0 with
      | none => .error .panicIndex
      | some (d, data1) =>
          if d ≠ "0" then
            match i_to_w d with
            | none => .error .panicParse
            | some w => bytesLoop n data1 (word ++ w)
          else bytesLoop n data1 word

/-- deserialize_cairo_bytesarray (utils.rs lines 172-183): pop the word
count, pop (and discard) pending_word_len at index count+1, then run the
word loop count+1 times.  Returns the decoded string and the remaining
stream. -/
def deserialize_cairo_bytesarray (data : List String) :
    Except DecodeError (String × List String) :=
  match listRemove data 0 with
  | none => .error .panicIndex
  | some (cs, data1) =>
      match parseUsize cs with
      | none => .error .panicParse
      | some pending_word =>
          match listRemove data1 (pending_word + 1) with
          | none => .error .panicIndex
          | some (pls, data2) =>
              match parseUsize pls with
              | none => .error .panicParse
              | some _pending_word_len =>
                  bytesLoop (pending_word + 1) data2 ""

/-- The bracket predicate of the trim_matches call at line 191. -/
def isBracket (c : Char) : Bool := c = '[' || c = ']'

/-- Rust str::trim_matches with the bracket predicate: strips every
matching character from the start and from the end of the string. -/
def trimMatches (s : List Char) : List Char :=
  ((s.dropWhile isBracket).reverse.dropWhile isBracket).reverse

/-- Unicode White_Space, the class char::is_whitespace tests. -/
def isRustWhitespace (c : Char) : Bool :=
  let n := c.toNat
  (0x09 ≤ n && n ≤ 0x0D) || n = 0x20 || n = 0x85 || n = 0xA0 || n = 0x1680 ||
  (0x2000 ≤ n && n ≤ 0x200A) || n = 0x2028 || n = 0x2029 || n = 0x202F ||
  n = 0x205F || n = 0x3000

/-- Worker for split_whitespace: the second argument is the current token
in reverse. -/
def splitWsAux : List Char → List Char → List String
  | [], cur => if cur.isEmpty then [] else [String.mk cur.reverse]
  | c :: rest, cur =>
      if isRustWhitespace c then
        if cur.isEmpty then splitWsAux rest []
        else String.mk cur.reverse :: splitWsAux rest []
      else splitWsAux rest (c :: cur)

/-- Rust str::split_whitespace().collect(): whitespace-separated tokens,
empty pieces discarded. -/
def splitWs (l : List Char) : List String := splitWsAux l []

/-- Lines 191-192 of deserialize: trim brackets, split on whitespace. -/
def tokenize (input : String) : List String := splitWs (trimMatches input.data)

/-- The fixed fields extracted by deserialize before the shape dispatch
(utils.rs lines 194-204). -/
structure FixedFields where
  version : Nat
  initial_state : String
  next_state : String
  origin : String
  caller : String
  tx_hash : String
deriving DecidableEq

/-- Lines 194-204 of deserialize: pop version (u32), initial_state,
next_state (str::parse::<String> never fails, so a plain pop), the two
byte-array decodes for origin and caller, and tx_hash. -/
def deserializeFixed (parts : List String) :
    Except DecodeError (FixedFields × List String) :=
  match listRemove parts 0 with
  | none => .error .panicIndex
  | some (vs, p1) =>
      match parseU32 vs with
      | none => .error .panicParse
      | some version =>
          match listRemove p1 0 with
          | none => .error .panicIndex
          | some (initial_state, p2) =>
              match listRemove p2 0 with
              | none => .error .panicIndex
              | some (next_state, p3) =>
                  match deserialize_cairo_bytesarray p3 with
                  | .error e => .error e
                  | .ok (origin, p4) =>
                      match deserialize_cairo_bytesarray p4 with
                      | .error e => .error e
                      | .ok (caller, p5) =>
                          match listRemove p5 0 with
                          | none => .error .panicIndex
                          | some (tx_hash, p6) =>
                              .ok (⟨version, initial_state, next_state,
                                    origin, caller, tx_hash⟩, p6)

/-- The match on parts.len() at lines 206-252: one remaining token builds
a score Event, seven build a transfer Event, anything else is the panic
arm.  The source's match on the length is modelled by the two equality
tests. -/
def deserializeDispatch (fx : FixedFields) (parts : List String) :
    Except DecodeError HyleOutput :=
  if parts.length = 1 then
    match listRemove parts 0 with
    | none => .error .panicIndex
    | some (s, _) =>
        match parseU64 s with
        | none => .error .panicParse
        | some score =>
            .ok ⟨fx.version, strBytes fx.initial_state, strBytes fx.next_state,
                 fx.origin, fx.caller, 0, 0, strBytes fx.tx_hash,
                 ⟨none, none, none, some score⟩⟩
  else if parts.length = 7 then
    match deserialize_cairo_bytesarray parts with
    | .error e => .error e
    | .ok (from_, q1) =>
        match deserialize_cairo_bytesarray q1 with
        | .error e => .error e
        | .ok (to_, q2) =>
            match listRemove q2 0 with
            | none => .error .panicIndex
            | some (s, _) =>
                match parseU64 s with
                | none => .error .panicParse
                | some amount =>
                    .ok ⟨fx.version, strBytes fx.initial_state, strBytes fx.next_state,
                         fx.origin, fx.caller, 0, 0, strBytes fx.tx_hash,
                         ⟨some from_, some to_, some amount, none⟩⟩
  else .error .unsupportedOutputShape

/-- deserialize (utils.rs lines 190-255): tokenize, read the fixed
fields, dispatch on the remaining token count. -/
def deserialize (input : String) : Except DecodeError HyleOutput :=
  match deserializeFixed (tokenize input) with
  | .error e => .error e
  | .ok (fx, parts) => deserializeDispatch fx parts

/-- Little-endian bytes of (n as u32), as written by
(len as u32).to_le_bytes() at lines 135 and 137: the cast keeps only the
low 32 bits. -/
def u32le (n : Nat) : List Nat :=
  [n % 256, n / 256 % 256, n / 2 ^ 16 % 256, n / 2 ^ 24 % 256]

/-- u32::from_le_bytes on a 4-byte slice. -/
def fromLE4 : List Nat → Nat
  | [a, b, c, d] => a + 256 * b + 2 ^ 16 * c + 2 ^ 24 * d
  | _ => 0

/-- One length-prefixed frame, the extend pattern of lines 135-138: the
4-byte little-endian (length as u32), then the payload. -/
def write_frame (payload : List Nat) : List Nat :=
  u32le payload.length ++ payload

/-- The byte layout assembled by write_proof (lines 116-148): frame for
the proof bytes, frame for the public-inputs bytes, then the
program-output bytes with no prefix.  The bincode encodings themselves
are the external codec, so the three sections are taken as given bytes. -/
def write_proof (proofBytes pubInputsBytes outputBytes : List Nat) : List Nat :=
  u32le proofBytes.length ++ proofBytes ++
  u32le pubInputsBytes.length ++ pubInputsBytes ++ outputBytes

/-- The framing portion of verify_proof (lines 26-54): the length checks
at lines 26 and 34 return a VerifierError; the slices at lines 46 and 47
panic when out of bounds (panicSlice).  The external bincode decodes that
the source interleaves (lines 38, 49, 56) and the cryptographic
verification are out of scope. -/
def read_artifact (bytes : List Nat) :
    Except FrameError (List Nat × List Nat × List Nat) :=
  if bytes.length < 8 then .error .verifierError
  else
    let proof_len := fromLE4 (bytes.take 4)
    let bytes1 := bytes.drop 4
    if bytes1.length < proof_len then .error .verifierError
    else
      let proofBytes := bytes1.take proof_len
      if bytes1.length < proof_len + 4 then .error .panicSlice
      else
        let pub_inputs_len := fromLE4 ((bytes1.drop proof_len).take 4)
        if bytes1.length < proof_len + 4 + pub_inputs_len then .error .panicSlice
        else
          .ok (proofBytes, (bytes1.drop (proof_len + 4)).take pub_inputs_len,
               bytes1.drop (proof_len + 4 + pub_inputs_len))

/-! Helper lemmas about the framing primitive. -/

lemma u32le_len (n : Nat) : (u32le n).length = 4 := rfl

lemma take4_u32le (n : Nat) (l : List Nat) : (u32le n ++ l).take 4 = u32le n := rfl

lemma drop4_u32le (n : Nat) (l : List Nat) : (u32le n ++ l).drop 4 = l := rfl

lemma fromLE4_u32le (n : Nat) (h : n < 2 ^ 32) : fromLE4 (u32le n) = n := by
  simp only [u32le, fromLE4]
  omega

/-- C1: writing an artifact from proof bytes P, public-input bytes I and
program-output bytes O (a 4-byte little-endian length, P, a 4-byte
little-endian length, I, then O) and parsing it back recovers exactly
(P, I, O), provided both lengths fit in 32 bits. -/
theorem C1_artifact_round_trip (p i o : List Nat)
    (hp : p.length < 2 ^ 32) (hi : i.length < 2 ^ 32) :
    read_artifact (write_proof p i o) = .ok (p, i, o) := by
  have h1 : write_proof p i o =
      u32le p.length ++ (p ++ (u32le i.length ++ (i ++ o))) := by
    simp [write_proof, List.append_assoc]
  rw [h1]
  unfold read_artifact
  rw [take4_u32le, drop4_u32le, fromLE4_u32le _ hp]
  have hL : (u32le p.length ++ (p ++ (u32le i.length ++ (i ++ o)))).length =
      4 + (p.length + (4 + (i.length + o.length))) := by
    simp [u32le_len]
  have hL1 : (p ++ (u32le i.length ++ (i ++ o))).length =
      p.length + (4 + (i.length + o.length)) := by
    simp [u32le_len]
  rw [if_neg (by omega), if_neg (by omega), if_neg (by omega)]
  rw [List.take_left, List.drop_left, take4_u32le, fromLE4_u32le _ hi]
  rw [if_neg (by omega)]
  have hd1 : (p ++ (u32le i.length ++ (i ++ o))).drop (p.length + 4) =
      i ++ o := by
    rw [List.drop_append, drop4_u32le]
  have hd2 : (p ++ (u32le i.length ++ (i ++ o))).drop (p.length + 4 + i.length) =
      o := by
    rw [Nat.add_assoc, List.drop_append]
    show (u32le i.length ++ (i ++ o)).drop (4 + i.length) = o
    rw [← List.drop_drop, drop4_u32le, List.drop_left]
  rw [hd1, hd2, List.take_left]

/-- C1 witness: the round trip at a concrete artifact. -/
theorem C1_artifact_round_trip_witness :
    read_artifact (write_proof [1, 2] [3] [4, 5, 6]) = .ok ([1, 2], [3], [4, 5, 6]) :=
  C1_artifact_round_trip [1, 2] [3] [4, 5, 6] (by decide) (by decide)

/-- C3: a buffer shorter than 8 bytes and a first declared frame length
larger than the remaining buffer are rejected with a returned error, as
the claim says; but a second declared frame length larger than the
remaining buffer makes the reader panic from an out-of-bounds slice
(utils.rs line 47) instead of returning an error, contradicting the
claim.  The third conjunct evaluates the reader at such a buffer: the
first frame declares 4 bytes (which fit), the second declares 99 bytes
while 0 remain. -/
theorem C3_truncation_behavior :
    read_artifact [0, 0, 0] = .error .verifierError ∧
    read_artifact [12, 0, 0, 0, 1, 1, 9, 9] = .error .verifierError ∧
    read_artifact [4, 0, 0, 0, 9, 9, 9, 9, 99, 0, 0, 0] = .error .panicSlice := by
  refine ⟨rfl, rfl, rfl⟩

/-- C7 counterexample: a payload of 2^32 bytes is written without any
error and its 4-byte length prefix decodes to 0, not to the true payload
length, so the writer silently truncates rather than failing loudly. -/
theorem C7_length_prefix_counterexample :
    (write_frame (List.replicate (2 ^ 32) 0)).take 4 = [0, 0, 0, 0] ∧
    fromLE4 ((write_frame (List.replicate (2 ^ 32) 0)).take 4) ≠
      (List.replicate (2 ^ 32) (0 : Nat)).length := by
  have h : (write_frame (List.replicate (2 ^ 32) 0)).take 4 =
      u32le (List.replicate (2 ^ 32) (0 : Nat)).length := take4_u32le _ _
  have hlen : (List.replicate (2 ^ 32) (0 : Nat)).length = 2 ^ 32 :=
    List.length_replicate _ _
  have hz : u32le (2 ^ 32) = [0, 0, 0, 0] := by norm_num [u32le]
  refine ⟨by rw [h, hlen, hz], by rw [h, hlen, hz]; norm_num [fromLE4]⟩

/-- C7 amended: writing a frame never fails; the 4-byte little-endian
prefix stores the payload length reduced modulo 2^32 (the Rust cast
len as u32), so it equals the true length exactly when that length fits
in 32 bits. -/
theorem C7_length_prefix_mod (p : List Nat) :
    fromLE4 ((write_frame p).take 4) = p.length % 2 ^ 32 := by
  rw [write_frame, take4_u32le]
  simp only [u32le, fromLE4]
  omega

/-! Shape predicates on the Event record, and helper lemmas about the
decoder. -/

/-- A score-shaped Event: only the score field is populated. -/
def scoreOnly (e : Event) : Prop :=
  e.from_ = none ∧ e.to_ = none ∧ e.amount = none ∧ e.score.isSome = true

/-- A transfer-shaped Event: from, to and amount are populated and score
is absent. -/
def transferOnly (e : Event) : Prop :=
  e.from_.isSome = true ∧ e.to_.isSome = true ∧ e.amount.isSome = true ∧ e.score = none

lemma dispatch_shape_err (fx : FixedFields) (parts : List String)
    (h1 : parts.length ≠ 1) (h7 : parts.length ≠ 7) :
    deserializeDispatch fx parts = .error .unsupportedOutputShape := by
  unfold deserializeDispatch
  rw [if_neg h1, if_neg h7]

lemma dispatch_ok_characterization (fx : FixedFields) (parts : List String)
    (out : HyleOutput) (h : deserializeDispatch fx parts = .ok out) :
    ((parts.length = 1 ∧ scoreOnly out.program_outputs) ∨
     (parts.length = 7 ∧ transferOnly out.program_outputs)) ∧
    out.block_number = 0 ∧ out.block_time = 0 := by
  unfold deserializeDispatch at h
  by_cases h1 : parts.length = 1
  · rw [if_pos h1] at h
    split at h
    · simp at h
    · split at h
      · simp at h
      · cases h
        exact ⟨Or.inl ⟨h1, by simp [scoreOnly]⟩, rfl, rfl⟩
  · rw [if_neg h1] at h
    by_cases h7 : parts.length = 7
    · rw [if_pos h7] at h
      split at h
      · simp at h
      · split at h
        · simp at h
        · split at h
          · simp at h
          · split at h
            · simp at h
            · cases h
              exact ⟨Or.inr ⟨h7, by simp [transferOnly]⟩, rfl, rfl⟩
    · rw [if_neg h7] at h
      simp at h

/-- C2: once the fixed fields have been consumed, one remaining token
yields a score-shaped record, seven remaining tokens yield a
transfer-shaped record, and any other remaining count makes decode fail
with the unsupported-output-shape error; no partially-populated record is
ever returned. -/
theorem C2_shape_dispatch (input : String) (fx : FixedFields) (rest : List String)
    (h : deserializeFixed (tokenize input) = .ok (fx, rest)) :
    (rest.length ≠ 1 → rest.length ≠ 7 →
      deserialize input = .error .unsupportedOutputShape) ∧
    (∀ out, deserialize input = .ok out →
      (rest.length = 1 ∧ scoreOnly out.program_outputs) ∨
      (rest.length = 7 ∧ transferOnly out.program_outputs)) := by
  have hd : deserialize input = deserializeDispatch fx rest := by
    unfold deserialize
    rw [h]
  constructor
  · intro h1 h7
    rw [hd]
    exact dispatch_shape_err fx rest h1 h7
  · intro out ho
    rw [hd] at ho
    exact (dispatch_ok_characterization fx rest out ho).1

/-- C2 witness: a stream with three tokens left after the fixed fields
is rejected with the unsupported-output-shape error. -/
theorem C2_shape_dispatch_witness :
    deserialize "[1 10 20 0 111 1 0 111 1 999 7 8 9]" = .error .unsupportedOutputShape :=
  (C2_shape_dispatch "[1 10 20 0 111 1 0 111 1 999 7 8 9]"
    ⟨1, "10", "20", "o", "o", "999"⟩ ["7", "8", "9"] rfl).1 (by decide) (by decide)

/-- C8: every record decode returns populates exactly one event variant:
it is score-shaped or transfer-shaped, and never both. -/
theorem C8_exactly_one_variant (input : String) (out : HyleOutput)
    (h : deserialize input = .ok out) :
    (scoreOnly out.program_outputs ∨ transferOnly out.program_outputs) ∧
    ¬(scoreOnly out.program_outputs ∧ transferOnly out.program_outputs) := by
  unfold deserialize at h
  split at h
  · simp at h
  · have hc := (dispatch_ok_characterization _ _ _ h).1
    constructor
    · rcases hc with ⟨_, hs⟩ | ⟨_, ht⟩
      · exact Or.inl hs
      · exact Or.inr ht
    · rintro ⟨⟨_, _, _, hsome⟩, ⟨_, _, _, hnone⟩⟩
      rw [hnone] at hsome
      simp at hsome

/-- The record produced from a concrete transfer-shaped output string. -/
def transferSample : HyleOutput :=
  ⟨1, strBytes "10", strBytes "20", "o", "o", 0, 0, strBytes "999",
   ⟨some "p", some "q", some 5, none⟩⟩

/-- C8 witness: the exactly-one-variant property at a concrete decoded
transfer record. -/
theorem C8_exactly_one_variant_witness :
    (scoreOnly transferSample.program_outputs ∨ transferOnly transferSample.program_outputs) ∧
    ¬(scoreOnly transferSample.program_outputs ∧ transferOnly transferSample.program_outputs) :=
  C8_exactly_one_variant "[1 10 20 0 111 1 0 111 1 999 0 112 1 0 113 1 5]"
    transferSample rfl

/-- C9: every record decode returns has block_number 0 and block_time 0;
the decoder hard-codes both fields. -/
theorem C9_block_fields_zero (input : String) (out : HyleOutput)
    (h : deserialize input = .ok out) :
    out.block_number = 0 ∧ out.block_time = 0 := by
  unfold deserialize at h
  split at h
  · simp at h
  · exact (dispatch_ok_characterization _ _ _ h).2

/-- The record produced from a concrete score-shaped output string. -/
def scoreSample : HyleOutput :=
  ⟨1, strBytes "10", strBytes "20", "o", "o", 0, 0, strBytes "999",
   ⟨none, none, none, some 42⟩⟩

/-- C9 witness: the zero block fields at a concrete decoded record. -/
theorem C9_block_fields_zero_witness :
    scoreSample.block_number = 0 ∧ scoreSample.block_time = 0 :=
  C9_block_fields_zero "[1 10 20 0 111 1 0 111 1 999 42]" scoreSample rfl

lemma listRemove_append_len (ws : List String) (x : String) (rest : List String) :
    listRemove (ws ++ x :: rest) ws.length = some (x, ws ++ rest) := by
  induction ws with
  | nil => rfl
  | cons a t ih => simp [listRemove, ih]

/-- C4: the pending_word_len token (the one at index pending_word_count
plus one after the count token) is consumed but never influences the
decoded result: two streams differing only in that token decode
identically as long as both values parse as unsigned integers. -/
theorem C4_pending_word_len_unused (c : String) (p : Nat) (ws : List String)
    (x y : String) (rest : List String)
    (hc : parseUsize c = some p) (hw : ws.length = p + 1)
    (hx : (parseUsize x).isSome = true) (hy : (parseUsize y).isSome = true) :
    deserialize_cairo_bytesarray (c :: (ws ++ x :: rest)) =
    deserialize_cairo_bytesarray (c :: (ws ++ y :: rest)) := by
  obtain ⟨vx, hvx⟩ := Option.isSome_iff_exists.mp hx
  obtain ⟨vy, hvy⟩ := Option.isSome_iff_exists.mp hy
  unfold deserialize_cairo_bytesarray
  simp only [listRemove, hc]
  rw [← hw, listRemove_append_len, listRemove_append_len]
  simp [hvx, hvy]

/-- C4 witness: changing the pending_word_len token from 5 to 7 leaves
the decode unchanged. -/
theorem C4_pending_word_len_unused_witness :
    deserialize_cairo_bytesarray ["1", "111", "111", "5"] =
    deserialize_cairo_bytesarray ["1", "111", "111", "7"] :=
  C4_pending_word_len_unused "1" 1 ["111", "111"] "5" "7" [] rfl rfl rfl rfl

/-- The spec's description of the byte-array decode result: the
concatenation, in stream order, of the i_to_w images of the word tokens
other than the literal 0, failing if any such image fails. -/
def specConcatNonZero : List String → Option String
  | [] => some ""
  | d :: r =>
      if d = "0" then specConcatNonZero r
      else
        match i_to_w d, specConcatNonZero r with
        | some a, some b => some (a ++ b)
        | _, _ => none

lemma bytesLoop_ok (n : Nat) : ∀ (data : List String) (acc w : String) (rest : List String),
    bytesLoop n data acc = .ok (w, rest) →
    ∃ ws t, data = ws ++ rest ∧ ws.length = n ∧
      specConcatNonZero ws = some t ∧ w = acc ++ t := by
  induction n with
  | zero =>
    intro data acc w rest h
    simp only [bytesLoop] at h
    cases h
    exact ⟨[], "", rfl, rfl, rfl, (String.append_empty acc).symm⟩
  | succ n ih =>
    intro data acc w rest h
    cases data with
    | nil => simp [bytesLoop, listRemove] at h
    | cons d data1 =>
      simp only [bytesLoop, listRemove] at h
      by_cases hd : d = "0"
      · rw [if_neg (by simp [hd])] at h
        obtain ⟨ws, t, hdata, hlen, hspec, hw⟩ := ih data1 acc w rest h
        exact ⟨d :: ws, t, by simp [hdata], by simp [hlen],
               by simp [specConcatNonZero, hd, hspec], hw⟩
      · rw [if_pos hd] at h
        cases hi : i_to_w d with
        | none => rw [hi] at h; simp at h
        | some wd =>
          rw [hi] at h
          obtain ⟨ws, t, hdata, hlen, hspec, hw⟩ := ih data1 (acc ++ wd) w rest h
          refine ⟨d :: ws, wd ++ t, by simp [hdata], by simp [hlen], ?_, ?_⟩
          · simp [specConcatNonZero, hd, hi, hspec]
          · rw [hw, String.append_assoc]

lemma listRemove_zero_eq (l : List String) (x : String) (r : List String)
    (h : listRemove l 0 = some (x, r)) : l = x :: r := by
  cases l with
  | nil => simp [listRemove] at h
  | cons a t =>
    simp only [listRemove, Option.some.injEq, Prod.mk.injEq] at h
    obtain ⟨rfl, rfl⟩ := h
    rfl

lemma listRemove_some (i : Nat) : ∀ (l : List String) (x : String) (l2 : List String),
    listRemove l i = some (x, l2) →
    ∃ a b, l = a ++ x :: b ∧ l2 = a ++ b ∧ a.length = i := by
  induction i with
  | zero =>
    intro l x l2 h
    exact ⟨[], l2, listRemove_zero_eq l x l2 h, rfl, rfl⟩
  | succ i ih =>
    intro l x l2 h
    cases l with
    | nil => simp [listRemove] at h
    | cons hd tl =>
      simp only [listRemove] at h
      cases hr : listRemove tl i with
      | none => rw [hr] at h; simp at h
      | some pr =>
        obtain ⟨y, r2⟩ := pr
        rw [hr] at h
        simp only [Option.some.injEq, Prod.mk.injEq] at h
        obtain ⟨rfl, rfl⟩ := h
        obtain ⟨a, b, h1, h2, h3⟩ := ih tl y r2 hr
        exact ⟨hd :: a, b, by simp [h1], by simp [h2], by simp [h3]⟩

/-- C6: an accepted byte-array decode consumed a count token, the
pending_word_count plus one word tokens and a pending_word_len token, and
its output is exactly the in-order concatenation of the i_to_w images of
the non-zero word tokens; tokens equal to the literal 0 contribute
nothing. -/
theorem C6_nonzero_word_concat (data : List String) (w : String) (rest : List String)
    (h : deserialize_cairo_bytesarray data = .ok (w, rest)) :
    ∃ c p ws pl, data = c :: (ws ++ pl :: rest) ∧ parseUsize c = some p ∧
      ws.length = p + 1 ∧ specConcatNonZero ws = some w := by
  unfold deserialize_cairo_bytesarray at h
  split at h
  · simp at h
  · rename_i c data1 heq0
    have hdata : data = c :: data1 := listRemove_zero_eq data c data1 heq0
    split at h
    · simp at h
    · rename_i p hc
      split at h
      · simp at h
      · rename_i pl data2 hrm
        split at h
        · simp at h
        · rename_i plv hpl
          obtain ⟨ws, t, hdata2, hlen, hspec, hw⟩ := bytesLoop_ok (p + 1) data2 "" w rest h
          obtain ⟨a, b, ha1, ha2, ha3⟩ := listRemove_some (p + 1) data1 pl data2 hrm
          have hab : a ++ b = ws ++ rest := by rw [← ha2, hdata2]
          obtain ⟨rfl, rfl⟩ := List.append_inj hab (by rw [ha3, hlen])
          refine ⟨c, p, a, pl, by rw [hdata, ha1], hc, by rw [ha3], ?_⟩
          rw [hspec, hw, String.empty_append]

/-- C6 witness: the concatenation characterization at a concrete stream
containing one zero word and the word 111 (ASCII o in hex). -/
theorem C6_nonzero_word_concat_witness :
    ∃ c p ws pl,
      (["1", "111", "0", "5", "99"] : List String) = c :: (ws ++ pl :: ["99"]) ∧
      parseUsize c = some p ∧ ws.length = p + 1 ∧ specConcatNonZero ws = some "o" :=
  C6_nonzero_word_concat ["1", "111", "0", "5", "99"] "o" ["99"] rfl

/-- C10: a token other than the literal 0 whose numeric value is zero is
not skipped: it renders as the odd-length hex string 0, hex decoding
fails, and the byte-array decode aborts instead of contributing an empty
segment. -/
theorem C10_zero_spelling (d : String) (hne : d ≠ "0") (h0 : parseBigInt d = some 0) :
    intToHex 0 = "0" ∧ hexDecode "0".data = none ∧ i_to_w d = none ∧
    deserialize_cairo_bytesarray ["0", d, "1"] = .error .panicParse := by
  have hiw : i_to_w d = none := by
    unfold i_to_w
    rw [h0]
    rfl
  refine ⟨rfl, rfl, hiw, ?_⟩
  have hred : deserialize_cairo_bytesarray ["0", d, "1"] =
      (if d ≠ "0" then
        match i_to_w d with
        | none => Except.error DecodeError.panicParse
        | some w => bytesLoop 0 [] ("" ++ w)
      else bytesLoop 0 [] "") := rfl
  rw [hred, if_pos hne, hiw]

/-- C5 counterexample: trimming the raw output double-bracketed as
left-bracket left-bracket 1 2 right-bracket right-bracket removes both
leading and both trailing brackets, where the claim says the second
consecutive bracket at each end is kept. -/
theorem C5_single_trim_counterexample :
    trimMatches ("[[1 2]]".data) = "1 2".data ∧
    trimMatches ("[[1 2]]".data) ≠ ('[' :: "1 2".data ++ [']']) := by
  exact ⟨rfl, by decide⟩

lemma head?_dropWhile_getD (p : Char → Bool) (l : List Char) (d : Char)
    (hd : p d = false) : p (((l.dropWhile p).head?).getD d) = false := by
  have h := List.head?_dropWhile_not p l
  cases hh : (l.dropWhile p).head? with
  | none => simpa using hd
  | some x =>
      rw [hh] at h
      simpa using h

lemma getLast?_dropWhile (p : Char → Bool) (l : List Char)
    (h : l.dropWhile p ≠ []) : (l.dropWhile p).getLast? = l.getLast? := by
  induction l with
  | nil => simp at h
  | cons c t ih =>
    by_cases hc : p c
    · rw [List.dropWhile_cons_of_pos hc] at h ⊢
      have ht : t ≠ [] := by
        intro he
        rw [he] at h
        simp at h
      rw [ih h]
      cases t with
      | nil => exact absurd rfl ht
      | cons b t2 => simp
    · rw [List.dropWhile_cons_of_neg hc]

/-- C5 amended: the trimming step removes every leading and every
trailing character that is a square bracket of either kind (the Rust
trim_matches semantics), not just a single leading left bracket and a
single trailing right bracket; interior characters are untouched, and the
trimmed result neither starts nor ends with a bracket. -/
theorem C5_trim_all_brackets (s : List Char) :
    ∃ a b, s = a ++ trimMatches s ++ b ∧ a.all isBracket = true ∧
      b.all isBracket = true ∧
      isBracket ((trimMatches s).headD 'x') = false ∧
      isBracket ((trimMatches s).getLastD 'x') = false := by
  have hx : isBracket 'x' = false := rfl
  have htm : trimMatches s =
      ((s.dropWhile isBracket).reverse.dropWhile isBracket).reverse := rfl
  have ht : s.dropWhile isBracket =
      ((s.dropWhile isBracket).reverse.dropWhile isBracket).reverse ++
      ((s.dropWhile isBracket).reverse.takeWhile isBracket).reverse := by
    have h2 := congrArg List.reverse
      (List.takeWhile_append_dropWhile isBracket (s.dropWhile isBracket).reverse)
    rw [List.reverse_append, List.reverse_reverse] at h2
    exact h2.symm
  refine ⟨s.takeWhile isBracket,
    ((s.dropWhile isBracket).reverse.takeWhile isBracket).reverse, ?_, ?_, ?_, ?_, ?_⟩
  · conv_lhs => rw [← List.takeWhile_append_dropWhile (p := isBracket) (l := s), ht]
    rw [htm, List.append_assoc]
  · simp only [List.all_eq_true]
    intro x hmem
    exact List.mem_takeWhile_imp hmem
  · simp only [List.all_reverse, List.all_eq_true]
    intro x hmem
    exact List.mem_takeWhile_imp hmem
  · rw [htm, List.headD_eq_head?, List.head?_reverse]
    by_cases hDW : (s.dropWhile isBracket).reverse.dropWhile isBracket = []
    · simp [hDW, hx]
    · rw [getLast?_dropWhile isBracket _ hDW, List.getLast?_reverse]
      exact head?_dropWhile_getD isBracket s 'x' hx
  · rw [htm, List.getLastD_eq_getLast?, List.getLast?_reverse]
    exact head?_dropWhile_getD isBracket (s.dropWhile isBracket).reverse 'x' hx

/-- C10 witness: the token 00 parses to zero, is not skipped, and makes
the decode fail. -/
theorem C10_zero_spelling_witness :
    intToHex 0 = "0" ∧ hexDecode "0".data = none ∧ i_to_w "00" = none ∧
    deserialize_cairo_bytesarray ["0", "00", "1"] = .error .panicParse :=
  C10_zero_spelling "00" (by decide) rfl

end CairoVerifier
